import Mathlib

/-!
# Verification of the DAQCap capture/normalisation pipeline

Shallow embedding of the DAQCap library sources:

* `Packet.cpp` / `Packet.h` — the parsed capture frame, its constructor, and
  the `packetsBetween` gap arithmetic;
* `PacketProcessor.cpp` — the stateful stream accumulator (`process`);
* `DAQSession_impl.cpp` — `SessionHandler_impl::fetchData`;
* `DAQCap.cpp` — `PCapDevice::fetchData` (the open-guard and dispatch shell);
* `DAQBlob.cpp` / `DAQBlob.h` — `DataBlob::pack` and the `packData` helper.

Bytes are modelled as natural numbers (`uint8_t` values fit in `Nat`); the
C++ `int` fields that can legitimately be compared and subtracted are
modelled as `Int`.  Machine-level overflow does not occur on the values the
program manipulates (16-bit sequence numbers, small gaps), so no `% 2^w`
reduction is required except where noted.
-/

namespace DAQCap

/-- `Packet::WORD_SIZE` (Packet.cpp line 22). -/
def WORD_SIZE : Nat := 5

/-- `Packet::IDLE_WORD` (Packet.cpp lines 24-25): `WORD_SIZE` copies of `0xFF`. -/
def IDLE_WORD : List Nat := List.replicate WORD_SIZE 0xFF

/-- `PACKET_NUMBER_OVERFLOW` (Packet.cpp line 18). -/
def PACKET_NUMBER_OVERFLOW : Int := 65536

/-- `PRELOAD_BYTES` (Packet.cpp line 19). -/
def PRELOAD_BYTES : Nat := 14

/-- `POSTLOAD_BYTES` (Packet.cpp line 20). -/
def POSTLOAD_BYTES : Nat := 4

/-- A parsed capture frame: the private members of `class Packet`
(Packet.h), i.e. the payload bytes `data`, the sequence number
`packetNumber` (a C++ `int`), and the intake identifier `ID`
(a C++ `unsigned long`). -/
structure Packet where
  ID : Nat
  packetNumber : Int
  data : List Nat
deriving Repr, DecidableEq

/-- The value of the function-local `static unsigned long counter` in
`Packet::Packet` (Packet.cpp line 59) before any frame has been
constructed: the initializer is `0`. -/
def initialPacketCounter : Nat := 0

/-- `Packet::Packet(const uint8_t *raw_data, size_t size)`
(Packet.cpp lines 27-64), with the static intake counter threaded
explicitly.  Throws `std::invalid_argument` when the input is shorter than
`PRELOAD_BYTES + POSTLOAD_BYTES`; otherwise reads the packet number by the
loop `for(i = size-2; i < size; ++i) { packetNumber <<= 8; packetNumber += raw_data[i]; }`,
copies the bytes in `[PRELOAD_BYTES, size - POSTLOAD_BYTES)` into `data`,
assigns `ID = counter` and increments the counter.  In-range reads are
guaranteed by the length check; `List.getD` mirrors `raw_data[i]`. -/
def Packet.construct (counter : Nat) (raw : List Nat) :
    Except String (Packet × Nat) :=
  if raw.length < PRELOAD_BYTES + POSTLOAD_BYTES then
    .error "Packet::Packet: raw_data must be at least 18 bytes long."
  else
    .ok
      ({ ID := counter
         packetNumber :=
           (List.range' (raw.length - 2) 2).foldl
             (fun pn i => pn * 256 + (raw.getD i 0 : Int)) 0
         data := (raw.take (raw.length - POSTLOAD_BYTES)).drop PRELOAD_BYTES },
       counter + 1)

/-- Modelled from the spec: `Packet::isNull` is declared in Packet.h
("Checks if this packet is a null packet") but no definition appears in the
sources.  The spec describes the validity test as "false iff intake
ID == 0, the sentinel", i.e. a packet is null exactly when its intake ID is
the sentinel value 0. -/
def Packet.isNull (p : Packet) : Bool := p.ID == 0

/-- `Packet::packetsBetween` (Packet.cpp lines 106-132).  Swaps the
arguments when `first.ID > second.ID` so that `first` is the older frame,
then computes the wrapped difference of sequence numbers. -/
def Packet.packetsBetween (first second : Packet) : Int :=
  if second.ID < first.ID then
    Packet.packetsBetween second first
  else
    let diff : Int :=
      if second.packetNumber < first.packetNumber then
        (second.packetNumber + PACKET_NUMBER_OVERFLOW) -
          (first.packetNumber + 1)
      else
        second.packetNumber - (first.packetNumber + 1)
    if diff < 0 then diff + PACKET_NUMBER_OVERFLOW else diff
termination_by (if second.ID < first.ID then 1 else 0)
decreasing_by simp_all; omega

example :
    Packet.construct 0 (List.range 19) =
      .ok ({ ID := 0, packetNumber := 256 * 17 + 18, data := [14] }, 1) :=
  rfl

example :
    Packet.packetsBetween ⟨0, 0xFFFF, []⟩ ⟨1, 0, []⟩ = 0 := by
  simp [Packet.packetsBetween, PACKET_NUMBER_OVERFLOW]

example :
    Packet.packetsBetween ⟨0, 7, []⟩ ⟨1, 7, []⟩ = 65535 := by
  simp [Packet.packetsBetween, PACKET_NUMBER_OVERFLOW]

/-- On already-ordered arguments, `packetsBetween` computes the wrapped
difference `(second − first − 1) mod 65536`. -/
lemma packetsBetween_eq_emod (A B : Packet) (hID : ¬ B.ID < A.ID)
    (hA0 : 0 ≤ A.packetNumber) (hA : A.packetNumber < 65536)
    (hB0 : 0 ≤ B.packetNumber) (hB : B.packetNumber < 65536) :
    Packet.packetsBetween A B = (B.packetNumber - A.packetNumber - 1) % 65536 := by
  rw [Packet.packetsBetween]
  simp only [if_neg hID, PACKET_NUMBER_OVERFLOW]
  split_ifs <;> omega

/-- When the first argument is strictly newer by intake ID, `packetsBetween`
immediately swaps its arguments. -/
lemma packetsBetween_swap (A B : Packet) (h : B.ID < A.ID) :
    Packet.packetsBetween A B = Packet.packetsBetween B A := by
  rw [Packet.packetsBetween]
  simp [if_pos h]

/-- C2: for frames `A` older by intake ID and `B`, with sequence numbers in
`[0, 65535]`, `Packet::packetsBetween` returns `(sB − sA − 1) mod 65536`; in
particular consecutive sequence numbers (including the wrap `0xFFFF` then
`0x0000`) yield `0`, and identical sequence numbers yield `65535`. -/
theorem packetsBetween_formula (A B : Packet) (hID : A.ID < B.ID)
    (hA0 : 0 ≤ A.packetNumber) (hA : A.packetNumber < 65536)
    (hB0 : 0 ≤ B.packetNumber) (hB : B.packetNumber < 65536) :
    Packet.packetsBetween A B = (B.packetNumber - A.packetNumber - 1) % 65536 ∧
    (B.packetNumber = (A.packetNumber + 1) % 65536 →
      Packet.packetsBetween A B = 0) ∧
    (B.packetNumber = A.packetNumber →
      Packet.packetsBetween A B = 65535) := by
  have h := packetsBetween_eq_emod A B (by omega) hA0 hA hB0 hB
  refine ⟨h, ?_, ?_⟩ <;> intro he <;> rw [h, he] <;> omega

/-- Witness for C2 at the wrap-around pair `sA = 0xFFFF`, `sB = 0x0000`. -/
theorem packetsBetween_formula_witness :
    (0 : Nat) < 1 ∧ (0 : Int) ≤ 0xFFFF ∧ (0xFFFF : Int) < 65536 ∧
      (0 : Int) ≤ 0 ∧ (0 : Int) < 65536 ∧
    (Packet.packetsBetween ⟨0, 0xFFFF, []⟩ ⟨1, 0, []⟩ =
        ((0 : Int) - 0xFFFF - 1) % 65536 ∧
      ((0 : Int) = (0xFFFF + 1) % 65536 →
        Packet.packetsBetween ⟨0, 0xFFFF, []⟩ ⟨1, 0, []⟩ = 0) ∧
      ((0 : Int) = 0xFFFF →
        Packet.packetsBetween ⟨0, 0xFFFF, []⟩ ⟨1, 0, []⟩ = 65535)) :=
  ⟨by decide, by decide, by decide, by decide, by decide,
    packetsBetween_formula ⟨0, 0xFFFF, []⟩ ⟨1, 0, []⟩ (by decide) (by decide)
      (by decide) (by decide) (by decide)⟩

/-- C6: `packetsBetween` is symmetric on frames with distinct intake IDs
(as all frames constructed in one process have), and for sequence numbers
in `[0, 65535]` its result lies in `[0, 65535]`. -/
theorem packetsBetween_symm_range (A B : Packet) (hID : A.ID ≠ B.ID)
    (hA0 : 0 ≤ A.packetNumber) (hA : A.packetNumber < 65536)
    (hB0 : 0 ≤ B.packetNumber) (hB : B.packetNumber < 65536) :
    Packet.packetsBetween A B = Packet.packetsBetween B A ∧
    0 ≤ Packet.packetsBetween A B ∧ Packet.packetsBetween A B ≤ 65535 := by
  rcases Nat.lt_or_ge A.ID B.ID with hlt | hge
  · have h := packetsBetween_eq_emod A B (by omega) hA0 hA hB0 hB
    exact ⟨(packetsBetween_swap B A hlt).symm, by rw [h]; omega, by rw [h]; omega⟩
  · have hlt : B.ID < A.ID := by omega
    have h := packetsBetween_eq_emod B A (by omega) hB0 hB hA0 hA
    have hs := packetsBetween_swap A B hlt
    exact ⟨hs, by rw [hs, h]; omega, by rw [hs, h]; omega⟩

/-- Witness for C6 at a concrete newer-first pair. -/
theorem packetsBetween_symm_range_witness :
    (7 : Nat) ≠ 3 ∧ (0 : Int) ≤ 5 ∧ (5 : Int) < 65536 ∧
      (0 : Int) ≤ 9 ∧ (9 : Int) < 65536 ∧
    (Packet.packetsBetween ⟨7, 5, []⟩ ⟨3, 9, []⟩ =
        Packet.packetsBetween ⟨3, 9, []⟩ ⟨7, 5, []⟩ ∧
      0 ≤ Packet.packetsBetween ⟨7, 5, []⟩ ⟨3, 9, []⟩ ∧
      Packet.packetsBetween ⟨7, 5, []⟩ ⟨3, 9, []⟩ ≤ 65535) :=
  ⟨by decide, by decide, by decide, by decide, by decide,
    packetsBetween_symm_range ⟨7, 5, []⟩ ⟨3, 9, []⟩ (by decide) (by decide)
      (by decide) (by decide) (by decide)⟩

/-- The result value produced by one fetch: the members of `class DataBlob`
(DAQBlob.h): packet count, byte stream, warnings. -/
structure DataBlob where
  packets : Nat
  dataBuffer : List Nat
  warningsBuffer : List String
deriving Repr, DecidableEq

/-- The state of `PacketProcessor` (PacketProcessor.h) that survives across
calls: the last processed packet (a null `unique_ptr` initially) and the
`unfinishedWords` carry buffer. -/
structure ProcState where
  lastPacket : Option Packet
  unfinishedWords : List Nat
deriving Repr, DecidableEq

/-- `PacketProcessor::PacketProcessor()` (PacketProcessor.cpp line 9):
`lastPacket(nullptr)` and an empty carry. -/
def ProcState.initial : ProcState := { lastPacket := none, unfinishedWords := [] }

/-- The word-scanning loop shared by `PacketProcessor::process`
(PacketProcessor.cpp lines 180-223) and `SessionHandler_impl::fetchData`
(DAQSession_impl.cpp lines 266-299): starting at the front of the buffer,
take one `WORD_SIZE`(= 5)-byte window at a time while at least `WORD_SIZE`
bytes remain (the loop stops at `data.cend() - data.size() % WORD_SIZE`);
append the window to the blob unless idle words are being stripped and it
equals the idle word; the bytes after the last full window become the new
`unfinishedWords` carry.  The keep-condition is the C++ disjunction
`includingIdleWords || idleWord.empty() || !std::equal(iter, iter + WORD_SIZE, idleWord.cbegin())`
(`PacketProcessor::process` has no `includingIdleWords` flag, i.e. uses
`false` for it).  Returns (kept bytes, carry). -/
def scanWords (includingIdleWords : Bool) (idleWord : List Nat) :
    List Nat → List Nat × List Nat
  | b0 :: b1 :: b2 :: b3 :: b4 :: rest =>
    let p := scanWords includingIdleWords idleWord rest
    if includingIdleWords = true ∨ idleWord = [] ∨
        [b0, b1, b2, b3, b4] ≠ idleWord then
      (b0 :: b1 :: b2 :: b3 :: b4 :: p.1, p.2)
    else p
  | l => ([], l)

/-- The warning-collection walk of `PacketProcessor::process`
(PacketProcessor.cpp lines 86-120): starting from the stored last packet,
compare each consecutive pair with `packetsBetween` and record a warning
for every nonzero gap; also returns the last packet seen (unchanged when
the input is empty, matching `if(prevPacket) lastPacket = ...`). -/
def gapWarnings : Option Packet → List Packet → List String × Option Packet
  | prev, [] => ([], prev)
  | prev, p :: rest =>
    let here : List String :=
      match prev with
      | none => []
      | some q =>
        let gap := Packet.packetsBetween q p
        if gap ≠ 0 then
          [toString gap ++ " packets lost! Packet = " ++
            toString p.packetNumber ++ ", Last = " ++ toString q.packetNumber]
        else []
    let t := gapWarnings (some p) rest
    (here ++ t.1, t.2)

/-- `PacketProcessor::process` (PacketProcessor.cpp lines 23-228): records
the packet count, walks the packets for gap warnings, moves the carry to
the front of the working buffer, appends every packet's payload, scans the
word-aligned part for idle words, and keeps the trailing partial word as
the new carry. -/
def process (st : ProcState) (packets : List Packet) : DataBlob × ProcState :=
  let w := gapWarnings st.lastPacket packets
  let data := st.unfinishedWords ++ (packets.map Packet.data).flatten
  let scanned := scanWords false IDLE_WORD data
  ({ packets := packets.length
     dataBuffer := scanned.1
     warningsBuffer := w.1 },
   { lastPacket := w.2, unfinishedWords := scanned.2 })

/-- A whole session at the processor level: fold `process` over the
successive fetches, collecting the returned blobs. -/
def runProcess : ProcState → List (List Packet) → List DataBlob × ProcState
  | st, [] => ([], st)
  | st, f :: fs =>
    let r := process st f
    let t := runProcess r.2 fs
    (r.1 :: t.1, t.2)

/-- Modelled from the spec: the "IDLE-word-filtered concatenation" of a
byte stream (spec §8 invariant 2) — split the stream into consecutive
`WORD_SIZE`-byte groups, drop every full group equal to `IDLE_WORD`, and
keep everything else, including the trailing partial group. -/
def idleFilteredStream : List Nat → List Nat
  | b0 :: b1 :: b2 :: b3 :: b4 :: rest =>
    if [b0, b1, b2, b3, b4] = IDLE_WORD then idleFilteredStream rest
    else b0 :: b1 :: b2 :: b3 :: b4 :: idleFilteredStream rest
  | l => l

example :
    scanWords false IDLE_WORD [1, 2, 3, 4, 5, 255, 255, 255, 255, 255, 9, 9] =
      ([1, 2, 3, 4, 5], [9, 9]) := by decide

example :
    idleFilteredStream [1, 2, 3, 4, 5, 255, 255, 255, 255, 255, 9, 9] =
      [1, 2, 3, 4, 5, 9, 9] := by decide

/-- Unfolding equation of `scanWords` on a buffer holding at least one full
word. -/
lemma scanWords_cons (inc : Bool) (iw : List Nat) (b0 b1 b2 b3 b4 : Nat)
    (rest : List Nat) :
    scanWords inc iw (b0 :: b1 :: b2 :: b3 :: b4 :: rest) =
      (if inc = true ∨ iw = [] ∨ [b0, b1, b2, b3, b4] ≠ iw then
        (b0 :: b1 :: b2 :: b3 :: b4 :: (scanWords inc iw rest).1,
          (scanWords inc iw rest).2)
      else scanWords inc iw rest) := rfl

/-- A buffer shorter than a word is scanned into an empty blob part and is
kept whole as the carry. -/
lemma scanWords_short (inc : Bool) (iw : List Nat) (l : List Nat)
    (h : l.length < WORD_SIZE) : scanWords inc iw l = ([], l) := by
  rcases l with _ | ⟨a, _ | ⟨b, _ | ⟨c, _ | ⟨d, _ | ⟨e, rest⟩⟩⟩⟩⟩ <;>
    first
      | rfl
      | (exfalso; simp only [List.length_cons, WORD_SIZE] at h; omega)

/-- The kept part of a scan is word-aligned. -/
lemma scanWords_fst_mod (inc : Bool) (iw : List Nat) (s : List Nat) :
    (scanWords inc iw s).1.length % WORD_SIZE = 0 := by
  induction s using scanWords.induct inc iw with
  | case1 b0 b1 b2 b3 b4 rest h ih =>
    rw [scanWords_cons, if_pos h]
    simp only [List.length_cons, WORD_SIZE] at *
    omega
  | case2 b0 b1 b2 b3 b4 rest h ih =>
    rw [scanWords_cons, if_neg h]
    exact ih
  | case3 l h =>
    have hlen : l.length < WORD_SIZE := by
      rcases l with _ | ⟨a, _ | ⟨b, _ | ⟨c, _ | ⟨d, _ | ⟨e, rest⟩⟩⟩⟩⟩ <;>
        first
          | exact (h _ _ _ _ _ _ rfl).elim
          | (simp only [List.length_nil, List.length_cons, WORD_SIZE]; omega)
    rw [scanWords_short inc iw l hlen]
    simp [WORD_SIZE]

/-- The carry left by a scan is strictly shorter than a word. -/
lemma scanWords_snd_lt (inc : Bool) (iw : List Nat) (s : List Nat) :
    (scanWords inc iw s).2.length < WORD_SIZE := by
  induction s using scanWords.induct inc iw with
  | case1 b0 b1 b2 b3 b4 rest h ih =>
    rw [scanWords_cons, if_pos h]
    exact ih
  | case2 b0 b1 b2 b3 b4 rest h ih =>
    rw [scanWords_cons, if_neg h]
    exact ih
  | case3 l h =>
    have hlen : l.length < WORD_SIZE := by
      rcases l with _ | ⟨a, _ | ⟨b, _ | ⟨c, _ | ⟨d, _ | ⟨e, rest⟩⟩⟩⟩⟩ <;>
        first
          | exact (h _ _ _ _ _ _ rfl).elim
          | (simp only [List.length_nil, List.length_cons, WORD_SIZE]; omega)
    rw [scanWords_short inc iw l hlen]
    exact hlen

/-- Scanning a stream in two chunks, feeding the carry of the first chunk
into the second, produces the same kept bytes and the same final carry as
scanning the whole stream in one pass. -/
lemma scanWords_append (inc : Bool) (iw : List Nat) (a b : List Nat) :
    scanWords inc iw (a ++ b) =
      ((scanWords inc iw a).1 ++
          (scanWords inc iw ((scanWords inc iw a).2 ++ b)).1,
        (scanWords inc iw ((scanWords inc iw a).2 ++ b)).2) := by
  induction a using scanWords.induct inc iw with
  | case1 b0 b1 b2 b3 b4 rest h ih =>
    rw [List.cons_append, List.cons_append, List.cons_append, List.cons_append,
      List.cons_append, scanWords_cons, if_pos h, scanWords_cons, if_pos h]
    simp [ih]
  | case2 b0 b1 b2 b3 b4 rest h ih =>
    rw [List.cons_append, List.cons_append, List.cons_append, List.cons_append,
      List.cons_append, scanWords_cons, if_neg h, scanWords_cons, if_neg h]
    exact ih
  | case3 l h =>
    have hlen : l.length < WORD_SIZE := by
      rcases l with _ | ⟨a, _ | ⟨b, _ | ⟨c, _ | ⟨d, _ | ⟨e, rest⟩⟩⟩⟩⟩ <;>
        first
          | exact (h _ _ _ _ _ _ rfl).elim
          | (simp only [List.length_nil, List.length_cons, WORD_SIZE]; omega)
    rw [scanWords_short inc iw l hlen]
    simp

/-- With idle stripping on (the `PacketProcessor::process` configuration),
the kept bytes followed by the carry form exactly the idle-word-filtered
stream. -/
lemma scanWords_filter (s : List Nat) :
    (scanWords false IDLE_WORD s).1 ++ (scanWords false IDLE_WORD s).2 =
      idleFilteredStream s := by
  induction s using scanWords.induct false IDLE_WORD with
  | case1 b0 b1 b2 b3 b4 rest h ih =>
    have hne : [b0, b1, b2, b3, b4] ≠ IDLE_WORD := by
      rcases h with h | h | h
      · exact absurd h (by decide)
      · exact absurd h (by decide)
      · exact h
    rw [scanWords_cons, if_pos h, idleFilteredStream, if_neg hne]
    simp only [List.cons_append]
    rw [ih]
  | case2 b0 b1 b2 b3 b4 rest h ih =>
    have heq : [b0, b1, b2, b3, b4] = IDLE_WORD := by
      by_contra hne
      exact h (Or.inr (Or.inr hne))
    rw [scanWords_cons, if_neg h, idleFilteredStream, if_pos heq]
    exact ih
  | case3 l h =>
    have hlen : l.length < WORD_SIZE := by
      rcases l with _ | ⟨a, _ | ⟨b, _ | ⟨c, _ | ⟨d, _ | ⟨e, rest⟩⟩⟩⟩⟩ <;>
        first
          | exact (h _ _ _ _ _ _ rfl).elim
          | (simp only [List.length_nil, List.length_cons, WORD_SIZE]; omega)
    rw [scanWords_short false IDLE_WORD l hlen]
    rcases l with _ | ⟨a, _ | ⟨b, _ | ⟨c, _ | ⟨d, _ | ⟨e, rest⟩⟩⟩⟩⟩ <;>
      first
        | exact (h _ _ _ _ _ _ rfl).elim
        | rfl

/-- C3: after every call to `PacketProcessor::process`, for every input
packet sequence and every prior processor state, the returned blob's data
length is an exact multiple of `WORD_SIZE` and the carry left in
`unfinishedWords` is strictly shorter than `WORD_SIZE`. -/
theorem process_aligned (st : ProcState) (packets : List Packet) :
    (process st packets).1.dataBuffer.length % WORD_SIZE = 0 ∧
    (process st packets).2.unfinishedWords.length < WORD_SIZE :=
  ⟨scanWords_fst_mod false IDLE_WORD
      (st.unfinishedWords ++ (packets.map Packet.data).flatten),
    scanWords_snd_lt false IDLE_WORD
      (st.unfinishedWords ++ (packets.map Packet.data).flatten)⟩

/-- C5: a word-aligned window is dropped by the scan if and only if the
idle word is non-empty, idle-word inclusion is not enabled, and the window
is `FF FF FF FF FF` byte-for-byte; every other window is appended
unchanged, in order, and the carry is unaffected either way. -/
theorem scanWords_window_rule (inc : Bool) (w rest : List Nat)
    (hw : w.length = WORD_SIZE) :
    scanWords inc IDLE_WORD (w ++ rest) =
      (if IDLE_WORD ≠ [] ∧ inc = false ∧ w = [0xFF, 0xFF, 0xFF, 0xFF, 0xFF] then
        (scanWords inc IDLE_WORD rest).1
      else w ++ (scanWords inc IDLE_WORD rest).1,
      (scanWords inc IDLE_WORD rest).2) := by
  have hIW : IDLE_WORD = [0xFF, 0xFF, 0xFF, 0xFF, 0xFF] := by decide
  rcases w with _ | ⟨a, _ | ⟨b, _ | ⟨c, _ | ⟨d, _ | ⟨e, tail⟩⟩⟩⟩⟩ <;>
    simp only [List.length_nil, List.length_cons, WORD_SIZE] at hw
  · omega
  · omega
  · omega
  · omega
  · omega
  have htail : tail = [] := List.eq_nil_of_length_eq_zero (by omega)
  subst htail
  show scanWords inc IDLE_WORD (a :: b :: c :: d :: e :: rest) = _
  rw [scanWords_cons]
  cases inc with
  | false =>
    by_cases h2 : [a, b, c, d, e] = IDLE_WORD
    · rw [if_neg (by simp [h2, hIW]),
        if_pos ⟨by rw [hIW]; simp, rfl, by rw [← hIW]; exact h2⟩]
    · rw [if_pos (Or.inr (Or.inr h2)),
        if_neg (fun hc => h2 (by rw [hIW]; exact hc.2.2))]
      rfl
  | true =>
    rw [if_pos (Or.inl rfl), if_neg (fun hc => by simp at hc)]
    rfl

/-- Witness for C5: an idle window followed by a non-idle window and a
partial trailing byte. -/
theorem scanWords_window_rule_witness :
    ([0xFF, 0xFF, 0xFF, 0xFF, 0xFF] : List Nat).length = WORD_SIZE ∧
    scanWords false IDLE_WORD
        ([0xFF, 0xFF, 0xFF, 0xFF, 0xFF] ++ [1, 2, 3, 4, 5, 9]) =
      (if IDLE_WORD ≠ [] ∧ false = false ∧
          ([0xFF, 0xFF, 0xFF, 0xFF, 0xFF] : List Nat) =
            [0xFF, 0xFF, 0xFF, 0xFF, 0xFF] then
        (scanWords false IDLE_WORD [1, 2, 3, 4, 5, 9]).1
      else [0xFF, 0xFF, 0xFF, 0xFF, 0xFF] ++
        (scanWords false IDLE_WORD [1, 2, 3, 4, 5, 9]).1,
      (scanWords false IDLE_WORD [1, 2, 3, 4, 5, 9]).2) :=
  ⟨by decide,
    scanWords_window_rule false [0xFF, 0xFF, 0xFF, 0xFF, 0xFF]
      [1, 2, 3, 4, 5, 9] (by decide)⟩

/-- Conservation of bytes for a session started in an arbitrary state whose
carry is shorter than a word: the concatenated blob data followed by the
final carry is exactly the result of one scan over the carry followed by
every payload byte. -/
lemma runProcess_conservation (fetches : List (List Packet))
    (lp : Option Packet) (c : List Nat) (hc : c.length < WORD_SIZE) :
    ((runProcess ⟨lp, c⟩ fetches).1.map DataBlob.dataBuffer).flatten ++
        (runProcess ⟨lp, c⟩ fetches).2.unfinishedWords =
      (scanWords false IDLE_WORD
          (c ++ (fetches.flatten.map Packet.data).flatten)).1 ++
        (scanWords false IDLE_WORD
          (c ++ (fetches.flatten.map Packet.data).flatten)).2 := by
  induction fetches generalizing lp c with
  | nil =>
    simp [runProcess, scanWords_short false IDLE_WORD c hc]
  | cons f fs ih =>
    have hstep :
        runProcess ⟨lp, c⟩ (f :: fs) =
          ((process ⟨lp, c⟩ f).1 ::
              (runProcess (process ⟨lp, c⟩ f).2 fs).1,
            (runProcess (process ⟨lp, c⟩ f).2 fs).2) := rfl
    have hproc :
        process ⟨lp, c⟩ f =
          ({ packets := f.length
             dataBuffer :=
               (scanWords false IDLE_WORD
                 (c ++ (f.map Packet.data).flatten)).1
             warningsBuffer := (gapWarnings lp f).1 },
           { lastPacket := (gapWarnings lp f).2
             unfinishedWords :=
               (scanWords false IDLE_WORD
                 (c ++ (f.map Packet.data).flatten)).2 }) := rfl
    have hc2 :=
      scanWords_snd_lt false IDLE_WORD (c ++ (f.map Packet.data).flatten)
    have hIH :=
      ih (gapWarnings lp f).2
        (scanWords false IDLE_WORD (c ++ (f.map Packet.data).flatten)).2 hc2
    have hsplit :=
      scanWords_append false IDLE_WORD (c ++ (f.map Packet.data).flatten)
        ((fs.flatten.map Packet.data).flatten)
    rw [hstep]
    simp only [hproc, List.map_cons, List.flatten_cons, List.append_assoc, hIH]
    rw [List.map_append, List.flatten_append, ← List.append_assoc c, hsplit]
    simp [List.append_assoc]

/-- C1: over any sequence of `process` calls on one `PacketProcessor`
session started from the initial state, the concatenation of the data of
all returned blobs followed by the processor's final carry equals the
idle-word-filtered concatenation of all input frames' payload bytes: no
byte is lost or invented across fetch boundaries. -/
theorem process_conservation (fetches : List (List Packet)) :
    ((runProcess ProcState.initial fetches).1.map DataBlob.dataBuffer).flatten ++
        (runProcess ProcState.initial fetches).2.unfinishedWords =
      idleFilteredStream ((fetches.flatten.map Packet.data).flatten) := by
  have h :=
    runProcess_conservation fetches none [] (by simp [WORD_SIZE])
  rw [show (ProcState.initial) = (⟨none, []⟩ : ProcState) from rfl, h,
    List.nil_append, scanWords_filter]

/-- C7: the frame constructor fails if and only if the raw input is
shorter than 18 bytes; otherwise the payload is exactly the bytes between
the 14-byte preamble and the 4-byte trailer, and the sequence number is
the 16-bit big-endian integer read from the last two input bytes. -/
theorem construct_spec (c : Nat) (raw : List Nat) :
    (raw.length < 18 → Packet.construct c raw =
      .error "Packet::Packet: raw_data must be at least 18 bytes long.") ∧
    (18 ≤ raw.length →
      ∃ p, Packet.construct c raw = .ok (p, c + 1) ∧
        p.data = (raw.drop 14).take (raw.length - 18) ∧
        ∀ b0 b1, raw.drop (raw.length - 2) = [b0, b1] →
          p.packetNumber = 256 * (b0 : Int) + (b1 : Int)) := by
  constructor
  · intro h
    rw [Packet.construct, if_pos (by simpa [PRELOAD_BYTES, POSTLOAD_BYTES] using h)]
  · intro h
    rw [Packet.construct,
      if_neg (by simp only [PRELOAD_BYTES, POSTLOAD_BYTES]; omega)]
    refine ⟨_, rfl, ?_, ?_⟩
    · show (raw.take (raw.length - POSTLOAD_BYTES)).drop PRELOAD_BYTES =
        (raw.drop 14).take (raw.length - 18)
      rw [List.drop_take]
      simp only [PRELOAD_BYTES, POSTLOAD_BYTES]
      congr 1
    · intro b0 b1 hdrop
      have h0 : raw.getD (raw.length - 2) 0 = b0 := by
        rw [List.getD_eq_getElem?_getD]
        have hx := List.getElem?_drop raw (raw.length - 2) 0
        rw [hdrop] at hx
        simp only [Nat.add_zero] at hx
        rw [← hx]
        rfl
      have h1 : raw.getD (raw.length - 2 + 1) 0 = b1 := by
        rw [List.getD_eq_getElem?_getD]
        have hx := List.getElem?_drop raw (raw.length - 2) 1
        rw [hdrop] at hx
        rw [← hx]
        rfl
      show (List.range' (raw.length - 2) 2).foldl
          (fun pn i => pn * 256 + (raw.getD i 0 : Int)) 0 =
        256 * (b0 : Int) + (b1 : Int)
      rw [show List.range' (raw.length - 2) 2 =
        [raw.length - 2, raw.length - 2 + 1] from rfl]
      simp only [List.foldl_cons, List.foldl_nil, h0, h1]
      ring

/-- Witness for C7 on a 19-byte input. -/
theorem construct_spec_witness :
    18 ≤ (List.range 19).length ∧
    (∃ p, Packet.construct 5 (List.range 19) = .ok (p, 5 + 1) ∧
      p.data = ((List.range 19).drop 14).take ((List.range 19).length - 18) ∧
      ∀ b0 b1, (List.range 19).drop ((List.range 19).length - 2) = [b0, b1] →
        p.packetNumber = 256 * (b0 : Int) + (b1 : Int)) :=
  ⟨by decide, (construct_spec 5 (List.range 19)).2 (by decide)⟩

/-- C8 evaluation: the very first frame constructed in a process receives
intake ID 0 — the counter is initialised to 0 and assigned before being
incremented — so it carries the sentinel ID and the validity test reports
it null. -/
theorem first_frame_gets_sentinel_id :
    Packet.construct initialPacketCounter (List.replicate 18 0) =
      .ok ({ ID := 0, packetNumber := 0, data := [] }, 1) ∧
    ({ ID := 0, packetNumber := 0, data := [] } : Packet).isNull = true :=
  ⟨rfl, rfl⟩

/-- The kinds of exception the fetch paths throw: `std::logic_error`,
`std::runtime_error` (and subclasses other than `timeout_exception`), and
`DAQCap::timeout_exception`. -/
inductive DAQError where
  | logicError (msg : String)
  | runtimeError (msg : String)
  | timeoutError (msg : String)
deriving Repr, DecidableEq

/-- The members of `SessionHandler_impl` (DAQSession_impl.h) relevant to
`fetchData`: whether `netManager->hasOpenSession()` holds, the
`includingIdleWords` flag, the `lastPacket` across-fetch sentinel (a
default-constructed null `Packet` is `none`), and the `unfinishedWords`
carry. -/
structure SessionState where
  hasOpenSession : Bool
  includingIdleWords : Bool
  lastPacket : Option Packet
  unfinishedWords : List Nat
deriving Repr, DecidableEq

/-- `SessionHandler_impl::fetchData` (DAQSession_impl.cpp lines 124-303).
The outcome of the dispatched `netManager->fetchPackets` task is supplied
through the arguments: `timedOut` is the `future.wait_for == timeout`
test, `dispatchError` holds the message of an exception thrown by
`future.get()`, and `fetched` is the returned packet vector.  The guard
`if(!netManager->hasOpenSession()) throw std::logic_error(...)` comes
first, before any capture or state update; an empty fetch returns a
default blob without touching state; otherwise the function collects the
boundary and in-call gap warnings (together `gapWarnings`), sets
`lastPacket = packets.back()`, and runs the carry/scan pipeline. -/
def SessionHandler_fetchData (st : SessionState) (timedOut : Bool)
    (dispatchError : Option String) (fetched : List Packet) :
    Except DAQError DataBlob × SessionState :=
  if st.hasOpenSession = false then
    (.error (.logicError "Must start a session before fetching data."), st)
  else if timedOut = true then
    (.error (.timeoutError "DAQCap::SessionHandler::fetchData() timed out."),
      st)
  else
    match dispatchError with
    | some e =>
      (.error (.runtimeError ("Failed to fetch packets: " ++ e)), st)
    | none =>
      if fetched.isEmpty then
        (.ok { packets := 0, dataBuffer := [], warningsBuffer := [] }, st)
      else
        let w := gapWarnings st.lastPacket fetched
        let data := st.unfinishedWords ++ (fetched.map Packet.data).flatten
        let scanned := scanWords st.includingIdleWords IDLE_WORD data
        (.ok { packets := fetched.length
               dataBuffer := scanned.1
               warningsBuffer := w.1 },
          { st with lastPacket := w.2, unfinishedWords := scanned.2 })

/-- The members of `PCapDevice` (DAQCap.cpp) relevant to `fetchData`: the
pcap handle (`none` while closed) and the `packetProcessor` accumulator. -/
structure PCapDeviceState where
  handlerOpen : Bool
  procState : ProcState
deriving Repr, DecidableEq

/-- `PCapDevice::fetchData` (DAQCap.cpp lines 348-476).  The guard
`if(!handler) throw std::runtime_error("The device is not open.")` runs
before the select/dispatch machinery touches anything; on the open path
the frames delivered by `pcap_dispatch` (supplied here as `fetched`) are
passed to the packet processor (`blobify`, the merged revision of
`PacketProcessor::process`).  The select/dispatch error and timeout
branches return before processing with the processor state untouched. -/
def PCapDevice_fetchData (st : PCapDeviceState) (fetched : List Packet) :
    Except DAQError DataBlob × PCapDeviceState :=
  if st.handlerOpen = false then
    (.error (.runtimeError "The device is not open."), st)
  else
    let r := process st.procState fetched
    (.ok r.1, { st with procState := r.2 })

/-- Recognises a surfaced `std::logic_error`. -/
def isLogicErrorResult : Except DAQError DataBlob → Bool
  | .error (.logicError _) => true
  | _ => false

/-- C9 counterexample: `PCapDevice::fetchData` on a closed device fails as
claimed, but with `std::runtime_error`, not a logic error. -/
theorem pcap_fetch_not_logic_error :
    (PCapDevice_fetchData ⟨false, ProcState.initial⟩ []).1 =
      .error (.runtimeError "The device is not open.") ∧
    isLogicErrorResult
      (PCapDevice_fetchData ⟨false, ProcState.initial⟩ []).1 = false := by
  constructor <;> rfl

/-- C9 (amended): fetching on a not-open session or device fails
immediately with the NotOpen error and performs no capture or state
update; `SessionHandler_impl::fetchData` surfaces it as `std::logic_error`
while `PCapDevice::fetchData` surfaces it as `std::runtime_error`. -/
theorem fetch_not_open_guard (st : SessionState) (timedOut : Bool)
    (de : Option String) (fetched : List Packet)
    (dst : PCapDeviceState) (fetched2 : List Packet)
    (hs : st.hasOpenSession = false) (hd : dst.handlerOpen = false) :
    SessionHandler_fetchData st timedOut de fetched =
      (.error (.logicError "Must start a session before fetching data."), st) ∧
    PCapDevice_fetchData dst fetched2 =
      (.error (.runtimeError "The device is not open."), dst) := by
  constructor
  · rw [SessionHandler_fetchData.eq_def, if_pos hs]
  · rw [PCapDevice_fetchData.eq_def, if_pos hd]

/-- Witness for C9 on concrete closed states. -/
theorem fetch_not_open_guard_witness :
    (⟨false, false, none, []⟩ : SessionState).hasOpenSession = false ∧
    (⟨false, ProcState.initial⟩ : PCapDeviceState).handlerOpen = false ∧
    (SessionHandler_fetchData ⟨false, false, none, []⟩ true none [] =
      (.error (.logicError "Must start a session before fetching data."),
        ⟨false, false, none, []⟩) ∧
    PCapDevice_fetchData ⟨false, ProcState.initial⟩ [] =
      (.error (.runtimeError "The device is not open."),
        ⟨false, ProcState.initial⟩)) :=
  ⟨rfl, rfl,
    fetch_not_open_guard ⟨false, false, none, []⟩ true none []
      ⟨false, ProcState.initial⟩ [] rfl rfl⟩

/-- Modelled from the spec: the free function `DAQCap::packData` is
declared in include/DAQBlob.h and exercised by tests/DAQBlob.test.cpp and
tests/DAQCap.test.cpp, but no definition of it appears among the sources
(the member `DataBlob::pack` in src/DAQBlob.cpp is a different routine).
Per the spec, `packData` consumes the byte sequence as consecutive
big-endian `WORD_SIZE`-byte groups, producing one 64-bit word
`(b0<<32) | (b1<<24) | (b2<<16) | (b3<<8) | b4` per full group and
dropping any trailing partial group. -/
def packData : List Nat → List Nat
  | b0 :: b1 :: b2 :: b3 :: b4 :: rest =>
    (b0 <<< 32 ||| b1 <<< 24 ||| b2 <<< 16 ||| b3 <<< 8 ||| b4) ::
      packData rest
  | _ => []

example : packData [0, 1, 2, 3, 4, 9] = [0x0001020304] := by decide

example :
    packData (List.range 15) =
      [0x0001020304, 0x0506070809, 0x0a0b0c0d0e] := by decide

/-- C4: for an input of length `L`, `packData` returns exactly
`⌊L / WORD_SIZE⌋` words, dropping any trailing partial group, and the word
at index `i` is the big-endian value of the five bytes starting at offset
`WORD_SIZE * i`. -/
theorem packData_spec (data : List Nat) :
    (packData data).length = data.length / WORD_SIZE ∧
    ∀ i, i < (packData data).length →
      ∃ b0 b1 b2 b3 b4 t,
        data.drop (WORD_SIZE * i) = b0 :: b1 :: b2 :: b3 :: b4 :: t ∧
        (packData data).getD i 0 =
          b0 <<< 32 ||| b1 <<< 24 ||| b2 <<< 16 ||| b3 <<< 8 ||| b4 := by
  induction data using packData.induct with
  | case1 b0 b1 b2 b3 b4 rest ih =>
    constructor
    · show (packData rest).length + 1 = (rest.length + 5) / WORD_SIZE
      rw [ih.1]
      simp only [WORD_SIZE]
      omega
    · intro i hi
      match i with
      | 0 =>
        exact ⟨b0, b1, b2, b3, b4, rest, rfl, rfl⟩
      | j + 1 =>
        have hj : j < (packData rest).length := by
          have : (packData (b0 :: b1 :: b2 :: b3 :: b4 :: rest)).length =
              (packData rest).length + 1 := rfl
          omega
        obtain ⟨c0, c1, c2, c3, c4, t, hdrop, hword⟩ := ih.2 j hj
        refine ⟨c0, c1, c2, c3, c4, t, ?_, ?_⟩
        · have hidx : WORD_SIZE * (j + 1) = WORD_SIZE * j + 1 + 1 + 1 + 1 + 1 := by
            simp only [WORD_SIZE]; ring
          rw [hidx]
          show rest.drop (WORD_SIZE * j) = c0 :: c1 :: c2 :: c3 :: c4 :: t
          exact hdrop
        · show (packData rest).getD j 0 = _
          exact hword
  | case2 l h =>
    have hlen : l.length < WORD_SIZE := by
      rcases l with _ | ⟨a, _ | ⟨b, _ | ⟨c, _ | ⟨d, _ | ⟨e, rest⟩⟩⟩⟩⟩ <;>
        first
          | exact (h _ _ _ _ _ _ rfl).elim
          | (simp only [List.length_nil, List.length_cons, WORD_SIZE]; omega)
    have hnil : packData l = [] := by
      rcases l with _ | ⟨a, _ | ⟨b, _ | ⟨c, _ | ⟨d, _ | ⟨e, rest⟩⟩⟩⟩⟩ <;>
        first
          | exact (h _ _ _ _ _ _ rfl).elim
          | rfl
    rw [hnil]
    refine ⟨?_, ?_⟩
    · show 0 = l.length / WORD_SIZE
      simp only [WORD_SIZE] at hlen ⊢
      omega
    · intro i hi
      exact absurd hi (by simp)

/-- Witness for C4 at a six-byte input (one full word plus a partial). -/
theorem packData_spec_witness :
    0 < (packData [1, 2, 3, 4, 5, 6]).length ∧
    (∃ b0 b1 b2 b3 b4 t,
      ([1, 2, 3, 4, 5, 6] : List Nat).drop (WORD_SIZE * 0) =
        b0 :: b1 :: b2 :: b3 :: b4 :: t ∧
      (packData [1, 2, 3, 4, 5, 6]).getD 0 0 =
        b0 <<< 32 ||| b1 <<< 24 ||| b2 <<< 16 ||| b3 <<< 8 ||| b4) :=
  ⟨by decide, (packData_spec [1, 2, 3, 4, 5, 6]).2 0 (by decide)⟩

/-- A number never shrinks when bits are ORed into it. -/
lemma le_or_left (a b : Nat) : a ≤ a ||| b :=
  Nat.le_of_testBit (fun i h => by simp [Nat.testBit_or, h])

/-- The body of the inner loop of `DataBlob::pack` (DAQBlob.cpp lines
59-63): for `byte` from `0` to `WORD_SIZE - 1` the statement
`wordStart |= dataBuffer[wordStart + byte] << (8 * byte);` ORs a shifted
byte into the loop counter `wordStart` itself (the local `int word`
declared just above is never written after its initialisation and never
read).  Out-of-range vector reads are undefined behaviour in the C++ and
are modelled as reading `0`; likewise the C++ shift past the width of
`int` is undefined and is modelled exactly. -/
def packInner (dataBuffer : List Nat) (wordStart : Nat) : Nat :=
  (List.range WORD_SIZE).foldl
    (fun ws byte => ws ||| (dataBuffer.getD (ws + byte) 0) <<< (8 * byte))
    wordStart

/-- The accumulator of a fold never shrinks when every step is inflating. -/
lemma le_foldl_of_le (f : Nat → Nat → Nat) (hf : ∀ x y, x ≤ f x y) :
    ∀ (l : List Nat) (a : Nat), a ≤ l.foldl f a := by
  intro l
  induction l with
  | nil => intro a; exact le_refl a
  | cons y t ih => intro a; exact le_trans (hf a y) (ih (f a y))

/-- The inner loop of `DataBlob::pack` can only increase `wordStart`. -/
lemma le_packInner (dataBuffer : List Nat) (wordStart : Nat) :
    wordStart ≤ packInner dataBuffer wordStart :=
  le_foldl_of_le _ (fun x _ => le_or_left x _) (List.range WORD_SIZE) wordStart

/-- The outer loop of `DataBlob::pack` (DAQBlob.cpp lines 51-66):
`for(wordStart = 0; wordStart < dataBuffer.size(); wordStart += WORD_SIZE)`
with the inner loop mutating `wordStart`; `packedData` is only ever
`reserve`d, never appended to, so the loop returns it unchanged. -/
def packLoop (dataBuffer : List Nat) (wordStart : Nat)
    (packedData : List Nat) : List Nat :=
  if wordStart < dataBuffer.length then
    packLoop dataBuffer (packInner dataBuffer wordStart + WORD_SIZE) packedData
  else packedData
termination_by dataBuffer.length - wordStart
decreasing_by
  have hle := le_packInner dataBuffer wordStart
  simp only [WORD_SIZE]
  omega

/-- `DataBlob::pack` (DAQBlob.cpp lines 21-70): throws `std::logic_error`
when the buffer holds a partial word; otherwise runs the loop above and
returns the (never populated) `packedData` vector. -/
def DataBlob_pack (dataBuffer : List Nat) : Except DAQError (List Nat) :=
  if dataBuffer.length % WORD_SIZE ≠ 0 then
    .error (.logicError "DataBlob must not contain partial words.")
  else
    .ok (packLoop dataBuffer 0 [])

/-- C10: `DataBlob::pack` raises `std::logic_error` exactly when the
blob's data length is not a multiple of the word size, rather than
silently dropping a trailing partial word; word-aligned data never
raises. -/
theorem pack_misaligned_guard (dataBuffer : List Nat) :
    (dataBuffer.length % WORD_SIZE ≠ 0 →
      DataBlob_pack dataBuffer =
        .error (.logicError "DataBlob must not contain partial words.")) ∧
    (dataBuffer.length % WORD_SIZE = 0 →
      ∃ out, DataBlob_pack dataBuffer = .ok out) := by
  constructor
  · intro h
    rw [DataBlob_pack, if_pos h]
  · intro h
    rw [DataBlob_pack, if_neg (by simp [h])]
    exact ⟨_, rfl⟩

/-- Witness for C10 at a one-word buffer and a one-byte buffer. -/
theorem pack_misaligned_guard_witness :
    ([0, 0, 0, 0, 0] : List Nat).length % WORD_SIZE = 0 ∧
    (∃ out, DataBlob_pack [0, 0, 0, 0, 0] = .ok out) ∧
    ([7] : List Nat).length % WORD_SIZE ≠ 0 ∧
    DataBlob_pack [7] =
      .error (.logicError "DataBlob must not contain partial words.") :=
  ⟨by decide, (pack_misaligned_guard [0, 0, 0, 0, 0]).2 (by decide),
    by decide, (pack_misaligned_guard [7]).1 (by decide)⟩

/-- The word-aligned five-zero buffer demonstrates the dead loop: `pack`
returns an empty word vector although the claim C4's contract would
require one word. -/
theorem pack_returns_empty_on_word :
    DataBlob_pack [0, 0, 0, 0, 0] = .ok [] ∧
    packData [0, 0, 0, 0, 0] = [0] := by
  constructor
  · rw [DataBlob_pack, if_neg (by decide)]
    rw [packLoop, if_pos (by decide)]
    rw [show packInner [0, 0, 0, 0, 0] 0 + WORD_SIZE = 5 from by decide]
    rw [packLoop, if_neg (by decide)]
  · decide

end DAQCap
